import Mathlib

/-!
Verification of the persistent-storage core of a Plasma-style rollup operator
(`src/storage/src/lib.rs`): a shallow embedding of the five persisted tables
and of the public operations of `StorageProcessor`, with theorems about the
operation executor, the state-reconstruction queries, the nonce bookkeeping,
the prover-job coordinator and the error behaviour of blob decoding.

Tables are embedded as lists of row structures; SQL queries become list
functions written clause for clause from the source SQL (including SQL's
treatment of `NULL` aggregates, modelled by `Option`); `diesel`
transactions become the `Except`-based wrapper that returns the original
state on any failure; Rust `unwrap` on a failed decode becomes the distinct
outcome `Failure.panicked`; `u32`/`i32` casts (`as i32`, `as u32`) are kept
explicit as wrap-around conversions on `Nat`/`Int`.
-/

namespace ZkStorage

/-! ## Machine-integer casts

`operations.nonce`, `block_number`, account ids are `i32` columns; the Rust
API passes `u32` (`Nonce`, `BlockNumber`) and casts with `as i32` / `as u32`,
which reinterprets the 32-bit pattern. -/

/-- Rust `u32 as i32`: reinterpret the 32-bit pattern as signed. -/
def u32_to_i32 (n : Nat) : Int :=
  if n % 2 ^ 32 < 2 ^ 31 then ((n % 2 ^ 32 : Nat) : Int)
  else ((n % 2 ^ 32 : Nat) : Int) - 2 ^ 32

/-- Rust `i32 as u32`: reinterpret the 32-bit pattern as unsigned. -/
def i32_to_u32 (z : Int) : Nat := (z % 2 ^ 32).toNat

/-- Rust release-mode `u32` subtraction of one (wraps on underflow), as used
by `load_state_diff_for_block(block_number - 1, block_number)`. -/
def u32_sub_one (b : Nat) : Nat := (b + (2 ^ 32 - 1)) % 2 ^ 32

/-! ## SQL aggregates

`max(column)` / `min(column)` over a row set: `NULL` (here `none`) on an
empty set, otherwise the extremum. -/

/-- SQL `max` over a list of `Int` values: `none` for the empty list. -/
def listMax? : List Int → Option Int
  | [] => none
  | x :: xs =>
    match listMax? xs with
    | none => some x
    | some m => some (max x m)

/-- SQL `min` over a list of `Int` values: `none` for the empty list. -/
def listMin? : List Int → Option Int
  | [] => none
  | x :: xs =>
    match listMin? xs with
    | none => some x
    | some m => some (min x m)

/-- Rust `Iterator::max` over `u32` values (used by `load_state` for the
returned `last_block`): `none` for the empty iterator. -/
def natListMax? : List Nat → Option Nat
  | [] => none
  | x :: xs =>
    match natListMax? xs with
    | none => some x
    | some m => some (max x m)

/-! ## Collaborator domain types

Opaque to storage (spec section 6); carried through the tables as JSON
blobs. `Account` is an arbitrary domain payload, `EncodedProof` a fixed
shape array; both are modelled just concretely enough to be stored,
encoded and decoded. -/

/-- `EncodedProof`: opaque fixed-shape payload. -/
abbrev EncodedProof := Nat

/-- `plasma::models::Account`: arbitrary domain payload (`{ balance, … }`). -/
structure AccountData where
  balance : Nat
deriving DecidableEq

/-- `AccountMap = FnvHashMap<u32, Account>` as its list of key-value pairs. -/
abbrev AccountMap := List (Nat × AccountData)

/-- `models::TxMeta { addr, nonce }`. -/
structure TxMeta where
  addr : String
  nonce : Nat
deriving DecidableEq

/-- `plasma::models::Block`, reduced to the one field storage reads. -/
structure Block where
  block_number : Nat
deriving DecidableEq

/-- `models::Action`: `Commit` or `Verify { proof }`. -/
inductive Action where
  | commit : Action
  | verify : EncodedProof → Action
deriving DecidableEq

/-- `Action::to_string`, the persisted `action_type` literals. -/
def Action.to_string : Action → String
  | .commit => "Commit"
  | .verify _ => "Verify"

/-- `models::Operation`. -/
structure Operation where
  action : Action
  block : Block
  accounts_updated : Option AccountMap
  tx_meta : Option TxMeta
deriving DecidableEq

/-! ## JSON blobs

`serde_json::Value` restricted to the encodings the storage layer writes,
plus arbitrary undecodable blobs (`junk`) standing for corrupted or
schema-drifted data. -/

/-- A stored JSON blob. -/
inductive Value where
  | opV : Operation → Value
  | accV : AccountData → Value
  | proofV : EncodedProof → Value
  | junk : Nat → Value
deriving DecidableEq

/-- `serde_json::to_value(&op)`: total. -/
def encodeOperation (o : Operation) : Value := .opV o

/-- `serde_json::from_value::<Operation>`: fails on any other blob. -/
def decodeOperation : Value → Option Operation
  | .opV o => some o
  | _ => none

/-- `serde_json::to_value(account)`: total. -/
def encodeAccount (a : AccountData) : Value := .accV a

/-- `serde_json::from_value::<Account>`: fails on any other blob. -/
def decodeAccount : Value → Option AccountData
  | .accV a => some a
  | _ => none

/-- `serde_json::to_value(proof)`: total. -/
def encodeProof (p : EncodedProof) : Value := .proofV p

/-- `serde_json::from_value::<EncodedProof>`: fails on any other blob. -/
def decodeProof : Value → Option EncodedProof
  | .proofV p => some p
  | _ => none

/-! ## Persisted rows and the database state -/

/-- A row of `accounts` (the verified snapshot): `id` primary key. -/
structure AccountRow where
  id : Int
  last_block : Int
  data : Value
deriving DecidableEq

/-- A row of `account_updates`: unique on (`account_id`, `block_number`). -/
structure AccountUpdateRow where
  account_id : Int
  data : Value
  block_number : Int
deriving DecidableEq

/-- A row of `operations` (`StoredOperation` without `created_at`). -/
structure OperationRow where
  id : Int
  data : Value
  addr : String
  nonce : Int
  block_number : Int
  action_type : String
deriving DecidableEq

/-- A row of `proofs`: `block_number` primary key. -/
structure ProofRow where
  block_number : Int
  proof : Value
deriving DecidableEq

/-- A row of `prover_runs`; `created_at` as an abstract clock reading. -/
structure ProverRunRow where
  block_number : Int
  worker : String
  created_at : Nat
deriving DecidableEq

/-- The singleton `op_config` row. -/
structure OpConfigRow where
  addr : String
  next_nonce : Int
deriving DecidableEq

/-- The whole database state seen through one session, plus the server
clock `now` used by `prover_runs` lease filtering. -/
structure DB where
  accounts : List AccountRow
  account_updates : List AccountUpdateRow
  operations : List OperationRow
  next_operation_id : Int
  proofs : List ProofRow
  prover_runs : List ProverRunRow
  op_config : OpConfigRow
  now : Nat
deriving DecidableEq

/-- Failure outcomes: the structured `diesel::result::Error` kinds the code
can return (`NotFound`, `RollbackTransaction`, a unique-key
`DatabaseError`, `SerializationError`), plus `panicked` for a Rust panic
(`unwrap` on a failed decode or a missing field), which is not a returned
error at all. -/
inductive Failure where
  | notFound : Failure
  | rollbackTransaction : Failure
  | uniqueViolation : Failure
  | serialization : Failure
  | panicked : Failure
deriving DecidableEq

/-! ## ORDER BY id: insertion sort on rows -/

/-- Insert a row into a list sorted by `id`. -/
def insertById (r : AccountRow) : List AccountRow → List AccountRow
  | [] => [r]
  | x :: xs => if r.id ≤ x.id then r :: x :: xs else x :: insertById r xs

/-- `ORDER BY id` over result rows. -/
def sortById : List AccountRow → List AccountRow
  | [] => []
  | x :: xs => insertById x (sortById xs)

/-! ## load_state: rows to `(last_block, AccountMap)` -/

/-- `load_state`: `last_block` is the max of `last_block as u32` over the
rows (0 if none); each row's blob is decoded with `unwrap` (panics on a
bad blob) and the pairs are collected into the map. -/
def load_state (rows : List AccountRow) : Except Failure (Nat × AccountMap) :=
  let last_block := (natListMax? (rows.map fun a => i32_to_u32 a.last_block)).getD 0
  match rows.mapM fun a =>
      match decodeAccount a.data with
      | some d => Except.ok ((i32_to_u32 a.id, d) : Nat × AccountData)
      | none => Except.error Failure.panicked with
  | Except.error e => Except.error e
  | Except.ok pairs => Except.ok (last_block, pairs)

/-! ## Account store queries -/

/-- `SELECT COALESCE(max(last_block), 0) FROM accounts`. -/
def snapshotFrontier (db : DB) : Int :=
  (listMax? (db.accounts.map fun a => a.last_block)).getD 0

/-- Turn an `account_updates` row into a result row
(`account_id AS id, block_number AS last_block, data`). -/
def rowOfUpdate (u : AccountUpdateRow) : AccountRow :=
  ⟨u.account_id, u.block_number, u.data⟩

/-- The `s` CTE of `load_state_diff`: distinct ids of accounts touched by an
update in the half-open interval `[min from to, max from to)`. -/
def touchedIds (db : DB) (from_block to_block : Nat) : List Int :=
  let start_block := min from_block to_block
  let end_block := max from_block to_block
  ((db.account_updates.filter fun u =>
      decide ((start_block : Int) ≤ u.block_number) &&
      decide (u.block_number < (end_block : Int))).map fun u => u.account_id).dedup

/-- The correlated subquery of `load_state_diff`:
`SELECT max(block_number) FROM account_updates WHERE block_number < to_block
AND account_id = acct` (`NULL` when that set is empty). -/
def lastBlockBelow (db : DB) (acct : Int) (to_block : Nat) : Option Int :=
  listMax? ((db.account_updates.filter fun u =>
      decide (u.account_id = acct) && decide (u.block_number < (to_block : Int))).map
    fun u => u.block_number)

/-- The `upd` CTE rows contributed by one touched account of
`load_state_diff`: its update rows at the per-account `last_block` (none
when that `last_block` is `NULL`). -/
def diffBranch (db : DB) (to_block : Nat) (i : Int) : List AccountRow :=
  match lastBlockBelow db i to_block with
  | none => []
  | some lb =>
    (db.account_updates.filter fun u =>
        decide (u.account_id = i) && decide (u.block_number = lb)).map rowOfUpdate

/-- The result rows of `load_state_diff`'s query: for each touched account,
its update rows at the per-account `last_block`, ordered by id. -/
def diffRows (db : DB) (from_block to_block : Nat) : List AccountRow :=
  sortById ((touchedIds db from_block to_block).flatMap
    (diffBranch db to_block))

/-- `load_state_diff(from_block, to_block)`. -/
def load_state_diff (db : DB) (from_block to_block : Nat) :
    Except Failure (Nat × AccountMap) :=
  load_state (diffRows db from_block to_block)

/-- `load_state_diff_for_block(n) = load_state_diff(n - 1, n)`; the
subtraction is `u32` arithmetic, so `n = 0` wraps to `2^32 - 1` in release
builds (debug builds abort on the underflow). -/
def load_state_diff_for_block (db : DB) (block_number : Nat) :
    Except Failure (Nat × AccountMap) :=
  load_state_diff db (u32_sub_one block_number) block_number

/-- The correlated group of `load_committed_state`'s `s` CTE: per account,
the max `block_number` among its updates above the snapshot frontier. -/
def lastBlockAbove (db : DB) (acct : Int) : Option Int :=
  listMax? ((db.account_updates.filter fun u =>
      decide (u.account_id = acct) && decide (snapshotFrontier db < u.block_number)).map
    fun u => u.block_number)

/-- Distinct ids of accounts with an update above the snapshot frontier. -/
def aboveIds (db : DB) : List Int :=
  ((db.account_updates.filter fun u =>
      decide (snapshotFrontier db < u.block_number)).map fun u => u.account_id).dedup

/-- The `upd` CTE rows contributed by one account of
`load_committed_state`: its update rows at that account's max block above
the frontier. -/
def updBranch (db : DB) (i : Int) : List AccountRow :=
  match lastBlockAbove db i with
  | none => []
  | some lb =>
    (db.account_updates.filter fun u =>
        decide (u.account_id = i) && decide (u.block_number = lb)).map rowOfUpdate

/-- The `upd` CTE of `load_committed_state`: per touched account, its update
rows at that account's max block above the frontier. -/
def updRows (db : DB) : List AccountRow :=
  (aboveIds db).flatMap (updBranch db)

/-- One update row's contribution to the `FULL JOIN`: the per-field
`COALESCE(u.x, a.x)` makes every matched pair (and an unmatched update row)
produce the update row's fields. -/
def joinBranch (a : List AccountRow) (ur : AccountRow) : List AccountRow :=
  match a.filter fun ar => decide (ar.id = ur.id) with
  | [] => [ur]
  | ms => ms.map fun _ => ur

/-- `FULL JOIN ... ON a.id = u.id` with per-field
`COALESCE(u.x, a.x)` (the update row's fields win when present). -/
def fullJoin (u a : List AccountRow) : List AccountRow :=
  u.flatMap (joinBranch a) ++
    a.filter fun ar => !(u.any fun ur => decide (ur.id = ar.id))

/-- The result rows of `load_committed_state`'s query, ordered by id. -/
def committedRows (db : DB) : List AccountRow :=
  sortById (fullJoin (updRows db) db.accounts)

/-- `load_committed_state()`. -/
def load_committed_state (db : DB) : Except Failure (Nat × AccountMap) :=
  load_state (committedRows db)

/-- `load_verified_state()`: `SELECT * FROM accounts`. -/
def load_verified_state (db : DB) : Except Failure (Nat × AccountMap) :=
  load_state db.accounts

/-! ## Operation log -/

/-- Nonces of the stored operations of one signer address
(`SELECT nonce FROM operations WHERE addr = addr`). -/
def noncesFor (db : DB) (addr : String) : List Int :=
  (db.operations.filter fun o => decide (o.addr = addr)).map fun o => o.nonce

/-- Modelled from the spec: the server-side assignment of `addr` and `nonce`
on operation insert lives in the schema (defaults reading `op_config`),
which is not among the repository's source files; per spec sections 4.3 and
3 (I4), `addr` comes from `op_config`, and `nonce` is the maximum existing
nonce for that addr plus one, or `op_config.next_nonce` when the addr has
no operation yet. `id` is server-assigned. -/
def insert_operation (db : DB) (data : Value) (block_number : Int)
    (action_type : String) : DB × OperationRow :=
  let addr := db.op_config.addr
  let nonce :=
    match listMax? (noncesFor db addr) with
    | none => db.op_config.next_nonce
    | some m => m + 1
  let row : OperationRow :=
    ⟨db.next_operation_id, data, addr, nonce, block_number, action_type⟩
  ({ db with
      operations := db.operations ++ [row]
      next_operation_id := db.next_operation_id + 1 }, row)

/-- `StoredOperation::into_op`: decode the blob (`unwrap`: panics on a bad
blob), attach tx-meta from the row (`nonce as u32`), and lazily rehydrate
`accounts_updated` via `load_state_diff_for_block` when the blob lacks it. -/
def into_op (db : DB) (so : OperationRow) : Except Failure Operation :=
  let meta : TxMeta := ⟨so.addr, i32_to_u32 so.nonce⟩
  match decodeOperation so.data with
  | none => Except.error Failure.panicked
  | some op0 =>
    let op := { op0 with tx_meta := some meta }
    if op.accounts_updated.isNone then
      match load_state_diff_for_block db op.block.block_number with
      | Except.error e => Except.error e
      | Except.ok (_, updates) => Except.ok { op with accounts_updated := some updates }
    else Except.ok op

/-- `update_op_config(addr, nonce)`: set the singleton row's `addr` and set
`next_nonce` to the max over `{ max(nonce) over operations of addr } UNION
{ nonce as i32 }`, the SQL aggregate ignoring the `NULL` of an empty
operations set. -/
def update_op_config (db : DB) (addr : String) (nonce : Nat) : DB :=
  let next : Int :=
    match listMax? (noncesFor db addr) with
    | none => u32_to_i32 nonce
    | some m => max m (u32_to_i32 nonce)
  { db with op_config := ⟨addr, next⟩ }

/-- The rows `load_unsent_ops` selects:
`WHERE nonce >= current_nonce as i32`, in table (insertion) order. -/
def unsentRows (db : DB) (current_nonce : Nat) : List OperationRow :=
  db.operations.filter fun o => decide (u32_to_i32 current_nonce ≤ o.nonce)

/-- `load_unsent_ops(current_nonce)`: the selected rows, each hydrated by
`into_op`. -/
def load_unsent_ops (db : DB) (current_nonce : Nat) :
    Except Failure (List Operation) :=
  (unsentRows db current_nonce).mapM (into_op db)

/-! ## Operation executor -/

/-- `commit_state_update(block_number, accounts_updated)`: insert one
`account_updates` row per map entry (`as i32` casts on the keys); a
duplicate (`account_id`, `block_number`) key makes the insert fail with a
unique violation — modelled from the spec: the unique key on
(`account_id`, `block_number`) is schema (spec section 6), not a source
file. The source's `0 == inserted` check (returning `RollbackTransaction`)
is kept; a successful insert always affects one row. -/
def commit_state_update (db : DB) (block_number : Nat) :
    AccountMap → Except Failure DB
  | [] => Except.ok db
  | (account_id, a) :: rest =>
    let row : AccountUpdateRow :=
      ⟨u32_to_i32 account_id, encodeAccount a, u32_to_i32 block_number⟩
    if db.account_updates.any fun u =>
        decide (u.account_id = row.account_id) &&
        decide (u.block_number = row.block_number) then
      Except.error Failure.uniqueViolation
    else
      let inserted : Nat := 1
      if inserted = 0 then Except.error Failure.rollbackTransaction
      else
        commit_state_update
          { db with account_updates := db.account_updates ++ [row] }
          block_number rest

/-- `INSERT INTO accounts ... ON CONFLICT (id) DO UPDATE`: one upsert. -/
def upsertAccount (accs : List AccountRow) (row : AccountRow) : List AccountRow :=
  if accs.any fun a => decide (a.id = row.id) then
    accs.map fun a =>
      if a.id = row.id then { a with last_block := row.last_block, data := row.data }
      else a
  else accs ++ [row]

/-- `apply_state_update(block_number)`: upsert every `account_updates` row of
that block into `accounts`. -/
def apply_state_update (db : DB) (block_number : Nat) : DB :=
  { db with
      accounts :=
        ((db.account_updates.filter fun u =>
            decide (u.block_number = (block_number : Int))).map rowOfUpdate).foldl
          upsertAccount db.accounts }

/-- The body of `execute_operation`'s transaction: dispatch on the action
(`Commit` unwraps `accounts_updated` — a panic when it is `None` — and
stores the updates; `Verify` applies them), append the operation row, and
hydrate the stored row. -/
def executeBody (db : DB) (op : Operation) : Except Failure (DB × Operation) :=
  match
    match op.action with
    | .commit =>
      match op.accounts_updated with
      | none => Except.error Failure.panicked
      | some m => commit_state_update db op.block.block_number m
    | .verify _ => Except.ok (apply_state_update db op.block.block_number)
  with
  | Except.error e => Except.error e
  | Except.ok db1 =>
    let inserted :=
      insert_operation db1 (encodeOperation op) (u32_to_i32 op.block.block_number)
        op.action.to_string
    match into_op inserted.1 inserted.2 with
    | Except.error e => Except.error e
    | Except.ok result => Except.ok (inserted.1, result)

/-- `execute_operation(op)`: the body inside `conn.transaction` — a failing
body (returned error or panic unwinding the transaction) rolls back, leaving
the database as it was. -/
def execute_operation (db : DB) (op : Operation) : DB × Except Failure Operation :=
  match executeBody db op with
  | Except.ok (db2, r) => (db2, Except.ok r)
  | Except.error e => (db, Except.error e)

/-! ## Prover coordinator -/

/-- `SELECT max(block_number) FROM operations WHERE action_type = 'Verify'`:
`NULL` when no `Verify` operation exists. -/
def maxVerifiedBlock? (db : DB) : Option Int :=
  listMax? ((db.operations.filter fun o => decide (o.action_type = "Verify")).map
    fun o => o.block_number)

/-- The candidate block numbers of `fetch_prover_job`'s query. The second
conjunct is the source's `block_number > (SELECT max(block_number) ...
'Verify')` with SQL `NULL` semantics: when no `Verify` row exists the
comparison is `NULL`, which is not true, so no row qualifies. -/
def proverCandidates (db : DB) (timeout_seconds : Nat) : List Int :=
  (db.operations.filter fun o =>
    decide (o.action_type = "Commit") &&
    (match maxVerifiedBlock? db with
      | none => false
      | some m => decide (m < o.block_number)) &&
    !(db.proofs.any fun p => decide (p.block_number = o.block_number)) &&
    !(db.prover_runs.any fun r =>
      decide (r.block_number = o.block_number) &&
      decide (db.now - r.created_at < timeout_seconds))).map fun o => o.block_number

/-- `fetch_prover_job(worker, timeout_seconds)`: the minimum candidate block
(`NULL` aggregate when there is none); when found, record a `prover_run`
for the worker and return the block number. -/
def fetch_prover_job (db : DB) (worker : String) (timeout_seconds : Nat) :
    DB × Except Failure (Option Nat) :=
  match listMin? (proverCandidates db timeout_seconds) with
  | none => (db, Except.ok none)
  | some b =>
    let bn := i32_to_u32 b
    ({ db with prover_runs := db.prover_runs ++ [⟨u32_to_i32 bn, worker, db.now⟩] },
      Except.ok (some bn))

/-- `store_proof(block_number, proof)`: insert a `proofs` row; the primary
key on `block_number` rejects a duplicate. -/
def store_proof (db : DB) (block_number : Nat) (proof : EncodedProof) :
    Except Failure DB :=
  if db.proofs.any fun p => decide (p.block_number = u32_to_i32 block_number) then
    Except.error Failure.uniqueViolation
  else
    Except.ok
      { db with proofs := db.proofs ++ [⟨u32_to_i32 block_number, encodeProof proof⟩] }

/-- `load_proof(block_number)`: the stored row (a `NotFound` error when it
is absent), its blob decoded with `unwrap` (panics on a bad blob). -/
def load_proof (db : DB) (block_number : Nat) : Except Failure EncodedProof :=
  match db.proofs.find? fun p => decide (p.block_number = u32_to_i32 block_number) with
  | none => Except.error Failure.notFound
  | some row =>
    match decodeProof row.proof with
    | none => Except.error Failure.panicked
    | some p => Except.ok p

/-! ## Specification predicates

The properties the state-reconstruction queries are checked against; these
rephrase the claims, while the `def`s above are the code. -/

/-- Some update of account `acct` lies in the half-open interval
`[min from to, max from to)`. -/
def TouchedIn (db : DB) (from_block to_block : Nat) (acct : Int) : Prop :=
  ∃ w ∈ db.account_updates, w.account_id = acct ∧
    ((min from_block to_block : Nat) : Int) ≤ w.block_number ∧
    w.block_number < ((max from_block to_block : Nat) : Int)

/-- `u` is an update strictly below `to_block` and no update of the same
account strictly below `to_block` has a larger block number. -/
def IsLatestBelow (db : DB) (to_block : Nat) (u : AccountUpdateRow) : Prop :=
  u.block_number < (to_block : Int) ∧
  ∀ w ∈ db.account_updates, w.account_id = u.account_id →
    w.block_number < (to_block : Int) → w.block_number ≤ u.block_number

/-- `u` is an update above the snapshot frontier and no update of the same
account above the frontier has a larger block number. -/
def IsLatestAbove (db : DB) (u : AccountUpdateRow) : Prop :=
  snapshotFrontier db < u.block_number ∧
  ∀ w ∈ db.account_updates, w.account_id = u.account_id →
    snapshotFrontier db < w.block_number → w.block_number ≤ u.block_number

/-- Account `acct` has some update above the snapshot frontier. -/
def HasUpdateAbove (db : DB) (acct : Int) : Prop :=
  ∃ w ∈ db.account_updates, w.account_id = acct ∧
    snapshotFrontier db < w.block_number

/-- The consecutive integers `n0, n0 + 1, …, n0 + k - 1`. -/
def rangeFrom (n0 : Int) (k : Nat) : List Int :=
  (List.range k).map fun i : Nat => n0 + (i : Int)

/-! ## Concrete states for the closed theorems

Small databases on which the closed statements below evaluate. -/

/-- A database holding one `account_updates` row (account 1, block 1) and
nothing else. -/
def atomicDB : DB := ⟨[], [⟨1, Value.accV ⟨1⟩, 1⟩], [], 1, [], [], ⟨"op1", 0⟩, 0⟩

/-- A `Commit` of block 1 touching account 1, colliding with `atomicDB`'s
existing update row. -/
def atomicOp : Operation := ⟨.commit, ⟨1⟩, some [(1, ⟨2⟩)], none⟩

/-- A `Commit` operation for block 1 with an empty update map. -/
def soloCommitOp : Operation := ⟨.commit, ⟨1⟩, some [], none⟩

/-- A database holding exactly one stored `Commit` operation (block 1,
nonce 0) and no `Verify`, proof or prover run. -/
def soloCommitDB : DB :=
  ⟨[], [], [⟨1, encodeOperation soloCommitOp, "op1", 0, 1, "Commit"⟩], 2, [], [],
    ⟨"op1", 1⟩, 1000⟩

/-- `soloCommitDB` plus a stored `Verify` operation for block 0. -/
def soloWithVerifyDB : DB :=
  { soloCommitDB with
      operations :=
        soloCommitDB.operations ++ [⟨2, Value.junk 0, "op1", 1, 0, "Verify"⟩] }

/-- `soloCommitOp` as `load_unsent_ops` hydrates it from `soloCommitDB`. -/
def hydratedSoloOp : Operation := ⟨.commit, ⟨1⟩, some [], some ⟨"op1", 0⟩⟩

/-- An empty database whose `op_config` already holds `next_nonce = 10`. -/
def cfgDB : DB := ⟨[], [], [], 1, [], [], ⟨"op1", 10⟩, 0⟩

/-- A stored operation row whose blob does not decode as an `Operation`. -/
def badRow : OperationRow := ⟨1, Value.junk 0, "op1", 0, 1, "Commit"⟩

/-- A database holding `badRow` and a proof row whose blob does not decode
as an `EncodedProof`. -/
def badDB : DB := ⟨[], [], [badRow], 2, [⟨1, Value.junk 7⟩], [], ⟨"op1", 0⟩, 0⟩

/-- The empty database with `op_config = ("op1", 0)`. -/
def freshDB : DB := ⟨[], [], [], 1, [], [], ⟨"op1", 0⟩, 0⟩

/-- A `Commit` operation carrying no `accounts_updated`. -/
def noAccountsOp : Operation := ⟨.commit, ⟨1⟩, none, none⟩

/-! ## Cast lemmas -/

/-- Below `2^31`, the `u32 as i32` cast is the identity. -/
theorem u32_to_i32_of_lt (n : Nat) (h : n < 2 ^ 31) : u32_to_i32 n = (n : Int) := by
  unfold u32_to_i32
  have h2 : n % 2 ^ 32 = n := Nat.mod_eq_of_lt (lt_trans h (by norm_num))
  rw [h2, if_pos h]

/-! ## SQL aggregate lemmas -/

theorem listMax?_eq_none_iff (l : List Int) : listMax? l = none ↔ l = [] := by
  cases l with
  | nil => simp [listMax?]
  | cons x xs =>
    simp only [listMax?]
    cases h : listMax? xs <;> simp

/-- `listMax?` returns exactly a member that bounds the list from above. -/
theorem listMax?_spec (l : List Int) (m : Int) :
    listMax? l = some m ↔ m ∈ l ∧ ∀ x ∈ l, x ≤ m := by
  induction l generalizing m with
  | nil => simp [listMax?]
  | cons x xs ih =>
    simp only [listMax?]
    cases h : listMax? xs with
    | none =>
      have hx : xs = [] := (listMax?_eq_none_iff xs).mp h
      subst hx
      constructor
      · intro he
        injection he with he
        subst he
        exact ⟨List.mem_singleton.mpr rfl, by
          intro y hy
          rcases List.mem_singleton.mp hy with rfl
          exact le_refl _⟩
      · rintro ⟨hm, _⟩
        rcases List.mem_singleton.mp hm with rfl
        rfl
    | some mm =>
      have hmm : mm ∈ xs ∧ ∀ y ∈ xs, y ≤ mm := (ih mm).mp h
      constructor
      · intro he
        injection he with he
        subst he
        refine ⟨?_, ?_⟩
        · rcases le_total x mm with hle | hle
          · rw [max_eq_right hle]
            exact List.mem_cons_of_mem x hmm.1
          · rw [max_eq_left hle]
            exact List.mem_cons_self x xs
        · intro y hy
          rcases List.mem_cons.mp hy with rfl | hy
          · exact le_max_left _ _
          · exact le_trans (hmm.2 y hy) (le_max_right _ _)
      · rintro ⟨hm, hub⟩
        have h1 : max x mm ≤ m :=
          max_le (hub x (List.mem_cons_self x xs))
            (le_trans (le_refl mm) (hub mm (List.mem_cons_of_mem x hmm.1)))
        have h2 : m ≤ max x mm := by
          rcases List.mem_cons.mp hm with rfl | hm
          · exact le_max_left _ _
          · exact le_trans (hmm.2 m hm) (le_max_right _ _)
        exact congrArg some (le_antisymm h1 h2)

/-! ## ORDER BY lemmas -/

theorem mem_insertById (r x : AccountRow) (l : List AccountRow) :
    x ∈ insertById r l ↔ x = r ∨ x ∈ l := by
  induction l with
  | nil => simp [insertById]
  | cons y ys ih =>
    by_cases h : r.id ≤ y.id
    · rw [insertById, if_pos h]
      simp
    · rw [insertById, if_neg h]
      simp only [List.mem_cons, ih]
      tauto

theorem mem_sortById (x : AccountRow) (l : List AccountRow) :
    x ∈ sortById l ↔ x ∈ l := by
  induction l with
  | nil => simp [sortById]
  | cons y ys ih =>
    rw [sortById, mem_insertById]
    simp [ih]

theorem pairwise_insertById (r : AccountRow) (l : List AccountRow)
    (h : l.Pairwise fun a b => a.id ≤ b.id) :
    (insertById r l).Pairwise fun a b => a.id ≤ b.id := by
  induction l with
  | nil => simp [insertById]
  | cons y ys ih =>
    rcases List.pairwise_cons.mp h with ⟨hy, hys⟩
    by_cases hle : r.id ≤ y.id
    · rw [insertById, if_pos hle]
      refine List.pairwise_cons.mpr ⟨?_, h⟩
      intro b hb
      rcases List.mem_cons.mp hb with rfl | hb
      · exact hle
      · exact le_trans hle (hy b hb)
    · rw [insertById, if_neg hle]
      refine List.pairwise_cons.mpr ⟨?_, ih hys⟩
      intro b hb
      rcases (mem_insertById r b ys).mp hb with rfl | hb
      · exact le_of_not_le hle
      · exact hy b hb

theorem pairwise_sortById (l : List AccountRow) :
    (sortById l).Pairwise fun a b => a.id ≤ b.id := by
  induction l with
  | nil => simp [sortById]
  | cons y ys ih => exact pairwise_insertById y (sortById ys) ih

/-! ## Membership characterization of the query results -/

theorem mem_touchedIds (db : DB) (from_block to_block : Nat) (i : Int) :
    i ∈ touchedIds db from_block to_block ↔ TouchedIn db from_block to_block i := by
  simp only [touchedIds, TouchedIn, List.mem_dedup, List.mem_map, List.mem_filter,
    Bool.and_eq_true, decide_eq_true_eq]
  constructor
  · rintro ⟨u, ⟨hu, hs, he⟩, rfl⟩
    exact ⟨u, hu, rfl, hs, he⟩
  · rintro ⟨u, hu, rfl, hs, he⟩
    exact ⟨u, ⟨hu, hs, he⟩, rfl⟩

theorem mem_diffBranch (db : DB) (to_block : Nat) (i : Int) (r : AccountRow) :
    r ∈ diffBranch db to_block i ↔
      ∃ u ∈ db.account_updates, u.account_id = i ∧ IsLatestBelow db to_block u ∧
        r = rowOfUpdate u := by
  unfold diffBranch
  cases h : lastBlockBelow db i to_block with
  | none =>
    simp only [List.not_mem_nil, false_iff]
    rintro ⟨u, hu, hacct, ⟨hlt, _⟩, _⟩
    have hnil : (db.account_updates.filter fun v =>
        decide (v.account_id = i) && decide (v.block_number < (to_block : Int))).map
        (fun v => v.block_number) = [] :=
      (listMax?_eq_none_iff _).mp (by simpa [lastBlockBelow] using h)
    have hmem : u.block_number ∈ (db.account_updates.filter fun v =>
        decide (v.account_id = i) && decide (v.block_number < (to_block : Int))).map
        (fun v => v.block_number) := by
      refine List.mem_map.mpr ⟨u, List.mem_filter.mpr ⟨hu, ?_⟩, rfl⟩
      simp [hacct, hlt]
    rw [hnil] at hmem
    exact List.not_mem_nil _ hmem
  | some lb =>
    obtain ⟨hlbmem, hub⟩ := (listMax?_spec _ lb).mp (by simpa [lastBlockBelow] using h)
    obtain ⟨w, hwfil, hwlb⟩ := List.mem_map.mp hlbmem
    obtain ⟨hwmem, hwp⟩ := List.mem_filter.mp hwfil
    rw [Bool.and_eq_true, decide_eq_true_eq, decide_eq_true_eq] at hwp
    obtain ⟨hwacct, hwlt⟩ := hwp
    constructor
    · intro hr
      obtain ⟨u, hufil, hur⟩ := List.mem_map.mp hr
      obtain ⟨humem, hup⟩ := List.mem_filter.mp hufil
      rw [Bool.and_eq_true, decide_eq_true_eq, decide_eq_true_eq] at hup
      obtain ⟨huacct, hulb⟩ := hup
      refine ⟨u, humem, huacct, ⟨?_, ?_⟩, hur.symm⟩
      · rw [hulb, ← hwlb]
        exact hwlt
      · intro v hv hvacct hvlt
        have hvmem : v.block_number ∈ (db.account_updates.filter fun x =>
            decide (x.account_id = i) && decide (x.block_number < (to_block : Int))).map
            (fun x => x.block_number) := by
          refine List.mem_map.mpr ⟨v, List.mem_filter.mpr ⟨hv, ?_⟩, rfl⟩
          simp [hvacct.trans huacct, hvlt]
        calc v.block_number ≤ lb := hub _ hvmem
          _ = u.block_number := hulb.symm
    · rintro ⟨u, humem, huacct, ⟨hult, humax⟩, rfl⟩
      have humem' : u.block_number ∈ (db.account_updates.filter fun x =>
          decide (x.account_id = i) && decide (x.block_number < (to_block : Int))).map
          (fun x => x.block_number) := by
        refine List.mem_map.mpr ⟨u, List.mem_filter.mpr ⟨humem, ?_⟩, rfl⟩
        simp [huacct, hult]
      have h1 : u.block_number ≤ lb := hub _ humem'
      have h2 : lb ≤ u.block_number := by
        rw [← hwlb]
        exact humax w hwmem (hwacct.trans huacct.symm) hwlt
      exact List.mem_map.mpr
        ⟨u, List.mem_filter.mpr ⟨humem, by simp [huacct, le_antisymm h1 h2]⟩, rfl⟩

theorem mem_diffRows (db : DB) (from_block to_block : Nat) (r : AccountRow) :
    r ∈ diffRows db from_block to_block ↔
      ∃ u ∈ db.account_updates, r = rowOfUpdate u ∧
        TouchedIn db from_block to_block u.account_id ∧
        IsLatestBelow db to_block u := by
  unfold diffRows
  rw [mem_sortById, List.mem_flatMap]
  constructor
  · rintro ⟨i, hi, hbr⟩
    obtain ⟨u, hu, huacct, hlatest, hr⟩ := (mem_diffBranch db to_block i r).mp hbr
    subst huacct
    exact ⟨u, hu, hr, (mem_touchedIds db from_block to_block _).mp hi, hlatest⟩
  · rintro ⟨u, hu, hr, htouch, hlatest⟩
    exact ⟨u.account_id, (mem_touchedIds db from_block to_block _).mpr htouch,
      (mem_diffBranch db to_block u.account_id r).mpr ⟨u, hu, rfl, hlatest, hr⟩⟩

theorem mem_aboveIds (db : DB) (i : Int) :
    i ∈ aboveIds db ↔ HasUpdateAbove db i := by
  simp only [aboveIds, HasUpdateAbove, List.mem_dedup, List.mem_map, List.mem_filter,
    decide_eq_true_eq]
  constructor
  · rintro ⟨u, ⟨hu, habove⟩, rfl⟩
    exact ⟨u, hu, rfl, habove⟩
  · rintro ⟨u, hu, rfl, habove⟩
    exact ⟨u, ⟨hu, habove⟩, rfl⟩

theorem mem_updBranch (db : DB) (i : Int) (r : AccountRow) :
    r ∈ updBranch db i ↔
      ∃ u ∈ db.account_updates, u.account_id = i ∧ IsLatestAbove db u ∧
        r = rowOfUpdate u := by
  unfold updBranch
  cases h : lastBlockAbove db i with
  | none =>
    simp only [List.not_mem_nil, false_iff]
    rintro ⟨u, hu, hacct, ⟨habove, _⟩, _⟩
    have hnil : (db.account_updates.filter fun v =>
        decide (v.account_id = i) && decide (snapshotFrontier db < v.block_number)).map
        (fun v => v.block_number) = [] :=
      (listMax?_eq_none_iff _).mp (by simpa [lastBlockAbove] using h)
    have hmem : u.block_number ∈ (db.account_updates.filter fun v =>
        decide (v.account_id = i) && decide (snapshotFrontier db < v.block_number)).map
        (fun v => v.block_number) := by
      refine List.mem_map.mpr ⟨u, List.mem_filter.mpr ⟨hu, ?_⟩, rfl⟩
      simp [hacct, habove]
    rw [hnil] at hmem
    exact List.not_mem_nil _ hmem
  | some lb =>
    obtain ⟨hlbmem, hub⟩ := (listMax?_spec _ lb).mp (by simpa [lastBlockAbove] using h)
    obtain ⟨w, hwfil, hwlb⟩ := List.mem_map.mp hlbmem
    obtain ⟨hwmem, hwp⟩ := List.mem_filter.mp hwfil
    rw [Bool.and_eq_true, decide_eq_true_eq, decide_eq_true_eq] at hwp
    obtain ⟨hwacct, hwabove⟩ := hwp
    constructor
    · intro hr
      obtain ⟨u, hufil, hur⟩ := List.mem_map.mp hr
      obtain ⟨humem, hup⟩ := List.mem_filter.mp hufil
      rw [Bool.and_eq_true, decide_eq_true_eq, decide_eq_true_eq] at hup
      obtain ⟨huacct, hulb⟩ := hup
      refine ⟨u, humem, huacct, ⟨?_, ?_⟩, hur.symm⟩
      · rw [hulb, ← hwlb]
        exact hwabove
      · intro v hv hvacct hvabove
        have hvmem : v.block_number ∈ (db.account_updates.filter fun x =>
            decide (x.account_id = i) && decide (snapshotFrontier db < x.block_number)).map
            (fun x => x.block_number) := by
          refine List.mem_map.mpr ⟨v, List.mem_filter.mpr ⟨hv, ?_⟩, rfl⟩
          simp [hvacct.trans huacct, hvabove]
        calc v.block_number ≤ lb := hub _ hvmem
          _ = u.block_number := hulb.symm
    · rintro ⟨u, humem, huacct, ⟨huabove, humax⟩, rfl⟩
      have humem' : u.block_number ∈ (db.account_updates.filter fun x =>
          decide (x.account_id = i) && decide (snapshotFrontier db < x.block_number)).map
          (fun x => x.block_number) := by
        refine List.mem_map.mpr ⟨u, List.mem_filter.mpr ⟨humem, ?_⟩, rfl⟩
        simp [huacct, huabove]
      have h1 : u.block_number ≤ lb := hub _ humem'
      have h2 : lb ≤ u.block_number := by
        rw [← hwlb]
        exact humax w hwmem (hwacct.trans huacct.symm) hwabove
      exact List.mem_map.mpr
        ⟨u, List.mem_filter.mpr ⟨humem, by simp [huacct, le_antisymm h1 h2]⟩, rfl⟩

theorem mem_updRows (db : DB) (r : AccountRow) :
    r ∈ updRows db ↔
      ∃ u ∈ db.account_updates, r = rowOfUpdate u ∧ IsLatestAbove db u := by
  unfold updRows
  rw [List.mem_flatMap]
  constructor
  · rintro ⟨i, _, hbr⟩
    obtain ⟨u, hu, huacct, hlatest, hr⟩ := (mem_updBranch db i r).mp hbr
    exact ⟨u, hu, hr, hlatest⟩
  · rintro ⟨u, hu, hr, hlatest⟩
    refine ⟨u.account_id, (mem_aboveIds db _).mpr ⟨u, hu, rfl, hlatest.1⟩, ?_⟩
    exact (mem_updBranch db u.account_id r).mpr ⟨u, hu, rfl, hlatest, hr⟩

/-- The update side of the join has a row for an id exactly when the id has
an update above the frontier. -/
theorem updRows_id_iff (db : DB) (x : Int) :
    (∃ ur ∈ updRows db, ur.id = x) ↔ HasUpdateAbove db x := by
  constructor
  · rintro ⟨ur, hur, rfl⟩
    obtain ⟨u, hu, rfl, hlatest⟩ := (mem_updRows db ur).mp hur
    exact ⟨u, hu, rfl, hlatest.1⟩
  · intro hx
    obtain ⟨w, hw, hwacct, hwabove⟩ := hx
    -- the set of w's account's above-frontier blocks is nonempty, so its max exists
    cases h : lastBlockAbove db x with
    | none =>
      exfalso
      have hnil : (db.account_updates.filter fun v =>
          decide (v.account_id = x) && decide (snapshotFrontier db < v.block_number)).map
          (fun v => v.block_number) = [] :=
        (listMax?_eq_none_iff _).mp (by simpa [lastBlockAbove] using h)
      have hmem : w.block_number ∈ (db.account_updates.filter fun v =>
          decide (v.account_id = x) && decide (snapshotFrontier db < v.block_number)).map
          (fun v => v.block_number) := by
        refine List.mem_map.mpr ⟨w, List.mem_filter.mpr ⟨hw, ?_⟩, rfl⟩
        simp [hwacct, hwabove]
      rw [hnil] at hmem
      exact List.not_mem_nil _ hmem
    | some lb =>
      obtain ⟨hlbmem, hub⟩ := (listMax?_spec _ lb).mp (by simpa [lastBlockAbove] using h)
      obtain ⟨v, hvfil, hvlb⟩ := List.mem_map.mp hlbmem
      obtain ⟨hvmem, hvp⟩ := List.mem_filter.mp hvfil
      rw [Bool.and_eq_true, decide_eq_true_eq, decide_eq_true_eq] at hvp
      refine ⟨rowOfUpdate v, ?_, hvp.1⟩
      refine List.mem_flatMap.mpr ⟨x, (mem_aboveIds db x).mpr ⟨w, hw, hwacct, hwabove⟩, ?_⟩
      unfold updBranch
      rw [h]
      exact List.mem_map.mpr ⟨v, List.mem_filter.mpr ⟨hvmem, by simp [hvp.1, hvlb]⟩, rfl⟩

theorem mem_joinBranch (a : List AccountRow) (ur r : AccountRow) :
    r ∈ joinBranch a ur ↔ r = ur := by
  unfold joinBranch
  cases h : a.filter fun ar => decide (ar.id = ur.id) with
  | nil => simp
  | cons m ms =>
    simp only [List.mem_map, List.mem_cons]
    constructor
    · rintro ⟨_, _, rfl⟩
      rfl
    · rintro rfl
      exact ⟨m, Or.inl rfl, rfl⟩

theorem mem_fullJoin (u a : List AccountRow) (r : AccountRow) :
    r ∈ fullJoin u a ↔ r ∈ u ∨ (r ∈ a ∧ ∀ ur ∈ u, ur.id ≠ r.id) := by
  unfold fullJoin
  rw [List.mem_append, List.mem_flatMap]
  constructor
  · rintro (⟨ur, hur, hbr⟩ | hfil)
    · rcases (mem_joinBranch a ur r).mp hbr with rfl
      exact Or.inl hur
    · obtain ⟨hra, hp⟩ := List.mem_filter.mp hfil
      rw [Bool.not_eq_true', List.any_eq_false] at hp
      refine Or.inr ⟨hra, ?_⟩
      intro ur hur heq
      have := hp ur hur
      rw [decide_eq_true_eq] at this
      exact this heq
  · rintro (hru | ⟨hra, hnone⟩)
    · exact Or.inl ⟨r, hru, (mem_joinBranch a r r).mpr rfl⟩
    · refine Or.inr (List.mem_filter.mpr ⟨hra, ?_⟩)
      rw [Bool.not_eq_true', List.any_eq_false]
      intro ur hur
      rw [decide_eq_true_eq]
      exact hnone ur hur

theorem mem_committedRows (db : DB) (r : AccountRow) :
    r ∈ committedRows db ↔
      (∃ u ∈ db.account_updates, r = rowOfUpdate u ∧ IsLatestAbove db u) ∨
      (r ∈ db.accounts ∧ ¬ HasUpdateAbove db r.id) := by
  unfold committedRows
  rw [mem_sortById, mem_fullJoin]
  constructor
  · rintro (hupd | ⟨hacc, hnone⟩)
    · exact Or.inl ((mem_updRows db r).mp hupd)
    · refine Or.inr ⟨hacc, ?_⟩
      intro hhas
      obtain ⟨ur, hur, hid⟩ := (updRows_id_iff db r.id).mpr hhas
      exact hnone ur hur hid
  · rintro (hupd | ⟨hacc, hnone⟩)
    · exact Or.inl ((mem_updRows db r).mpr hupd)
    · refine Or.inr ⟨hacc, ?_⟩
      intro ur hur heq
      exact hnone ((updRows_id_iff db r.id).mp ⟨ur, hur, heq⟩)

/-! ## Consecutive nonce ranges -/

theorem rangeFrom_succ_cons (n0 : Int) (k : Nat) :
    rangeFrom n0 (k + 1) = n0 :: rangeFrom (n0 + 1) k := by
  unfold rangeFrom
  rw [List.range_succ_eq_map, List.map_cons, List.map_map]
  refine congrArg₂ List.cons (by push_cast; ring) ?_
  refine List.map_congr_left ?_
  intro i _
  show n0 + ((Nat.succ i : Nat) : Int) = (n0 + 1) + (i : Int)
  push_cast
  ring

theorem rangeFrom_snoc (n0 : Int) (k : Nat) :
    rangeFrom n0 k ++ [n0 + (k : Int)] = rangeFrom n0 (k + 1) := by
  unfold rangeFrom
  rw [List.range_succ, List.map_append]
  rfl

theorem listMax?_rangeFrom (k : Nat) : ∀ n0 : Int,
    listMax? (rangeFrom n0 (k + 1)) = some (n0 + (k : Int)) := by
  induction k with
  | zero =>
    intro n0
    rw [rangeFrom_succ_cons]
    show listMax? [n0] = some (n0 + ((0 : Nat) : Int))
    simp [rangeFrom, listMax?]
  | succ k ih =>
    intro n0
    rw [rangeFrom_succ_cons]
    have h1 : listMax? (n0 :: rangeFrom (n0 + 1) (k + 1)) =
        match listMax? (rangeFrom (n0 + 1) (k + 1)) with
        | none => some n0
        | some m => some (max n0 m) := rfl
    rw [h1, ih (n0 + 1)]
    show some (max n0 (n0 + 1 + (k : Int))) = some (n0 + ((k + 1 : Nat) : Int))
    have hle : n0 ≤ n0 + 1 + (k : Int) := by omega
    rw [max_eq_right hle]
    push_cast
    ring_nf

/-! ## Frame lemmas for the operation executor -/

/-- `commit_state_update` only appends `account_updates` rows. -/
theorem commit_state_update_frame (block_number : Nat) :
    ∀ (ps : AccountMap) (db db' : DB),
      commit_state_update db block_number ps = Except.ok db' →
      db'.operations = db.operations ∧ db'.op_config = db.op_config
  | [], db, db', h => by
    simp only [commit_state_update] at h
    injection h with h
    subst h
    exact ⟨rfl, rfl⟩
  | (aid, a) :: rest, db, db', h => by
    simp only [commit_state_update] at h
    split at h
    · exact absurd h (by simp)
    · rw [if_neg one_ne_zero] at h
      have hrec := commit_state_update_frame block_number rest _ db' h
      exact ⟨hrec.1, hrec.2⟩

/-- `apply_state_update` only rewrites the `accounts` snapshot. -/
theorem apply_state_update_frame (db : DB) (block_number : Nat) :
    (apply_state_update db block_number).operations = db.operations ∧
    (apply_state_update db block_number).op_config = db.op_config :=
  ⟨rfl, rfl⟩

/-- A successful `executeBody` is: a state mutation that touches neither the
operation log nor `op_config`, followed by the operation-row insert. -/
theorem executeBody_ok (db : DB) (op : Operation) (db2 : DB) (r : Operation)
    (h : executeBody db op = Except.ok (db2, r)) :
    ∃ db1 : DB, db1.operations = db.operations ∧ db1.op_config = db.op_config ∧
      db2 = (insert_operation db1 (encodeOperation op)
        (u32_to_i32 op.block.block_number) op.action.to_string).1 := by
  simp only [executeBody] at h
  split at h
  · exact absurd h (by simp)
  · rename_i db1 heq
    split at h
    · exact absurd h (by simp)
    · injection h with h
      rw [Prod.mk.injEq] at h
      have hframe : db1.operations = db.operations ∧ db1.op_config = db.op_config := by
        split at heq
        · split at heq
          · exact absurd heq (by simp)
          · exact commit_state_update_frame _ _ _ _ heq
        · injection heq with heq
          subst heq
          exact ⟨rfl, rfl⟩
      exact ⟨db1, hframe.1, hframe.2, h.1.symm⟩

/-- Appending the operation row extends the addr's nonce list by the
assigned nonce. -/
theorem noncesFor_insert_operation (db1 : DB) (d : Value) (bn : Int)
    (aty : String) :
    noncesFor (insert_operation db1 d bn aty).1 db1.op_config.addr =
      noncesFor db1 db1.op_config.addr ++
        [match listMax? (noncesFor db1 db1.op_config.addr) with
          | none => db1.op_config.next_nonce
          | some m => m + 1] := by
  simp [noncesFor, insert_operation, List.filter_append]

/-! ## Claim theorems -/

/-- C1: if `execute_operation` fails — in the state-mutation step
(`commit_state_update` for a `Commit`, `apply_state_update` for a `Verify`),
in the operation-row insert, or anywhere else inside the transaction — the
database is unchanged: no `account_update` row, no snapshot mutation and no
operation row from this call is visible afterwards. -/
theorem C1_execute_operation_atomic (db : DB) (op : Operation) (e : Failure)
    (h : (execute_operation db op).2 = Except.error e) :
    (execute_operation db op).1 = db := by
  unfold execute_operation at h ⊢
  cases hb : executeBody db op with
  | ok v =>
    obtain ⟨db2, r⟩ := v
    rw [hb] at h
    simp at h
  | error e2 =>
    rfl

/-- C1 witness: committing block 1 for account 1 against a state that
already holds that `(account_id, block_number)` update row fails on the
unique key, and the state is returned unchanged. -/
theorem C1_execute_operation_atomic_witness :
    (execute_operation atomicDB atomicOp).2 = Except.error Failure.uniqueViolation ∧
    (execute_operation atomicDB atomicOp).1 = atomicDB :=
  ⟨rfl, C1_execute_operation_atomic atomicDB atomicOp Failure.uniqueViolation rfl⟩

/-- C2: on a state with a single committed block 1, no `Verify` operation,
no proof and no prover run, `fetch_prover_job` returns `none` — the
`block_number > (SELECT max(block_number) … 'Verify')` comparison is `NULL`
when no `Verify` row exists, so no candidate qualifies; adding a `Verify`
for block 0 makes the same query return block 1, as the claim expects for
the no-`Verify` state. -/
theorem C2_fetch_prover_job_none_without_verify :
    (soloCommitDB.operations.map fun o => o.action_type) = ["Commit"] ∧
    soloCommitDB.proofs = [] ∧
    soloCommitDB.prover_runs = [] ∧
    fetch_prover_job soloCommitDB "w" 60 = (soloCommitDB, Except.ok none) ∧
    (fetch_prover_job soloWithVerifyDB "w" 60).2 = Except.ok (some 1) :=
  ⟨rfl, rfl, rfl, rfl, rfl⟩

/-- C3: `load_state_diff(from, to)` is `load_state` of the rows that are,
per account touched by an update in `[min from to, max from to)`, its update
with the maximum `block_number` strictly below `to` (the second argument);
accounts with no update below `to` contribute nothing, so an empty result
is valid; the candidate interval is symmetric in the two arguments, and the
rows are ordered by account id. -/
theorem C3_load_state_diff_spec (db : DB) (from_block to_block : Nat) :
    load_state_diff db from_block to_block =
      load_state (diffRows db from_block to_block) ∧
    touchedIds db from_block to_block = touchedIds db to_block from_block ∧
    (diffRows db from_block to_block).Pairwise (fun a b => a.id ≤ b.id) ∧
    ∀ r, r ∈ diffRows db from_block to_block ↔
      ∃ u ∈ db.account_updates, r = rowOfUpdate u ∧
        TouchedIn db from_block to_block u.account_id ∧
        IsLatestBelow db to_block u := by
  refine ⟨rfl, ?_, ?_, mem_diffRows db from_block to_block⟩
  · simp only [touchedIds]
    rw [Nat.min_comm, Nat.max_comm]
  · unfold diffRows
    exact pairwise_sortById _

/-- C4: `load_committed_state` is `load_state` of rows that overlay the
verified snapshot with, per account, its update at the maximum
`block_number` among updates above the snapshot's maximum `last_block`
(preferring the update row when one exists); the rows are ordered by id,
and the returned `last_block` is the maximum `last_block` over the returned
rows (0 when the result is empty). -/
theorem C4_load_committed_state_spec (db : DB) :
    load_committed_state db = load_state (committedRows db) ∧
    (committedRows db).Pairwise (fun a b => a.id ≤ b.id) ∧
    (∀ r, r ∈ committedRows db ↔
      (∃ u ∈ db.account_updates, r = rowOfUpdate u ∧ IsLatestAbove db u) ∨
      (r ∈ db.accounts ∧ ¬ HasUpdateAbove db r.id)) ∧
    ∀ lb m, load_committed_state db = Except.ok (lb, m) →
      lb = (natListMax? ((committedRows db).map fun a => i32_to_u32 a.last_block)).getD 0 := by
  refine ⟨rfl, ?_, mem_committedRows db, ?_⟩
  · unfold committedRows
    exact pairwise_sortById _
  · intro lb m h
    simp only [load_committed_state, load_state] at h
    split at h
    · exact absurd h (by simp)
    · injection h with h
      rw [Prod.mk.injEq] at h
      exact h.1.symm

/-- C5: a successful `execute_operation` call extends the nonces stored for
the configured signer address from the consecutive range
`n0, …, n0 + k - 1` to `n0, …, n0 + k` — each call assigns the next unused
nonce for that addr, starting at the `next_nonce` that the configuration
update put into `op_config` — and leaves `op_config` unchanged. -/
theorem C5_nonce_density (db : DB) (op : Operation) (r : Operation)
    (addr : String) (n0 : Int) (k : Nat)
    (haddr : db.op_config.addr = addr)
    (hnn : db.op_config.next_nonce = n0)
    (hrange : noncesFor db addr = rangeFrom n0 k)
    (hex : (execute_operation db op).2 = Except.ok r) :
    noncesFor (execute_operation db op).1 addr = rangeFrom n0 (k + 1) ∧
    (execute_operation db op).1.op_config = db.op_config := by
  unfold execute_operation at hex ⊢
  cases hb : executeBody db op with
  | error e =>
    rw [hb] at hex
    simp at hex
  | ok v =>
    obtain ⟨db2, r2⟩ := v
    obtain ⟨db1, hops, hcfg, hdb2⟩ := executeBody_ok db op db2 r2 hb
    subst hdb2
    have haddr1 : db1.op_config.addr = addr := by rw [hcfg, haddr]
    have hn1 : noncesFor db1 db1.op_config.addr = rangeFrom n0 k := by
      rw [haddr1]
      unfold noncesFor
      rw [hops]
      exact hrange
    constructor
    · show noncesFor (insert_operation db1 (encodeOperation op)
        (u32_to_i32 op.block.block_number) op.action.to_string).1 addr = rangeFrom n0 (k + 1)
      rw [← haddr1, noncesFor_insert_operation, hn1]
      cases k with
      | zero =>
        have h0 : rangeFrom n0 0 = [] := rfl
        rw [h0]
        have hnext : db1.op_config.next_nonce = n0 := by rw [hcfg, hnn]
        show [] ++ [db1.op_config.next_nonce] = rangeFrom n0 1
        rw [hnext, show rangeFrom n0 1 = [n0 + ((0 : Nat) : Int)] from rfl]
        simp
      | succ k0 =>
        rw [listMax?_rangeFrom k0 n0]
        show rangeFrom n0 (k0 + 1) ++ [n0 + (k0 : Int) + 1] = rangeFrom n0 (k0 + 1 + 1)
        rw [show n0 + (k0 : Int) + 1 = n0 + ((k0 + 1 : Nat) : Int) by push_cast; ring]
        exact rangeFrom_snoc n0 (k0 + 1)
    · show (insert_operation db1 (encodeOperation op)
        (u32_to_i32 op.block.block_number) op.action.to_string).1.op_config = db.op_config
      exact hcfg

/-- C5 witness: from a fresh state configured with `next_nonce = 0`,
executing one `Commit` leaves the addr's nonce list equal to `[0]`. -/
theorem C5_nonce_density_witness :
    noncesFor (execute_operation freshDB soloCommitOp).1 "op1" = rangeFrom 0 1 :=
  (C5_nonce_density freshDB soloCommitOp hydratedSoloOp "op1" 0 0 rfl rfl rfl rfl).1

/-- C6 counterexample: with `op_config.next_nonce = 10` and no stored
operations, `update_op_config("op1", 3)` sets `next_nonce` to 3 — not to
`max(current next_nonce, 3) = 10` — so a lower supplied nonce does
decrease `next_nonce`. -/
theorem C6_counterexample_next_nonce_decreases :
    (update_op_config cfgDB "op1" 3).op_config.next_nonce = 3 ∧
    cfgDB.op_config.next_nonce = 10 ∧
    (update_op_config cfgDB "op1" 3).op_config.next_nonce ≠
      max cfgDB.op_config.next_nonce (u32_to_i32 3) ∧
    (update_op_config cfgDB "op1" 3).op_config.next_nonce <
      cfgDB.op_config.next_nonce :=
  ⟨rfl, rfl, by decide, by decide⟩

/-- C6 amended: `update_op_config(addr, nonce)` sets `op_config.addr` to
`addr` and `next_nonce` to the maximum of the supplied nonce and the
largest nonce among stored operations of `addr` — ignoring the current
`next_nonce`; it is idempotent, and the result never lies below the
supplied nonce nor below any nonce already used by `addr`'s operations. -/
theorem C6_update_op_config_spec (db : DB) (addr : String) (nonce : Nat) :
    (update_op_config db addr nonce).op_config.addr = addr ∧
    update_op_config (update_op_config db addr nonce) addr nonce =
      update_op_config db addr nonce ∧
    u32_to_i32 nonce ≤ (update_op_config db addr nonce).op_config.next_nonce ∧
    ∀ o ∈ db.operations, o.addr = addr →
      o.nonce ≤ (update_op_config db addr nonce).op_config.next_nonce := by
  refine ⟨rfl, rfl, ?_, ?_⟩
  · cases hm : listMax? (noncesFor db addr) with
    | none =>
      show u32_to_i32 nonce ≤
        (match listMax? (noncesFor db addr) with
          | none => u32_to_i32 nonce
          | some m => max m (u32_to_i32 nonce))
      rw [hm]
    | some m =>
      show u32_to_i32 nonce ≤
        (match listMax? (noncesFor db addr) with
          | none => u32_to_i32 nonce
          | some m => max m (u32_to_i32 nonce))
      rw [hm]
      exact le_max_right _ _
  · intro o ho hoaddr
    have hmem : o.nonce ∈ noncesFor db addr := by
      unfold noncesFor
      exact List.mem_map.mpr ⟨o, List.mem_filter.mpr ⟨ho, by simp [hoaddr]⟩, rfl⟩
    cases hm : listMax? (noncesFor db addr) with
    | none =>
      exfalso
      rw [listMax?_eq_none_iff] at hm
      rw [hm] at hmem
      exact List.not_mem_nil _ hmem
    | some m =>
      have hle := ((listMax?_spec _ m).mp hm).2 _ hmem
      show o.nonce ≤
        (match listMax? (noncesFor db addr) with
          | none => u32_to_i32 nonce
          | some m => max m (u32_to_i32 nonce))
      rw [hm]
      exact le_trans hle (le_max_left _ _)

/-- C7 counterexample: at `current_nonce = 2^31` the `as i32` cast is
negative, so `load_unsent_ops` returns the stored operation with nonce 0
even though no stored operation has nonce ≥ `2^31`. -/
theorem C7_counterexample_signed_nonce_wrap :
    load_unsent_ops soloCommitDB (2 ^ 31) = Except.ok [hydratedSoloOp] ∧
    soloCommitDB.operations.filter (fun o => decide ((2 ^ 31 : Int) ≤ o.nonce)) = [] :=
  ⟨rfl, rfl⟩

/-- C7 amended: for every `current_nonce` below `2^31` (where the `as i32`
cast is the identity), `load_unsent_ops` hydrates exactly the stored
operations whose nonce is at least `current_nonce`, in insertion order (a
sublist of the stored order); at `2^31` and above the cast goes negative. -/
theorem C7_load_unsent_ops_spec (db : DB) (current_nonce : Nat)
    (h : current_nonce < 2 ^ 31) :
    unsentRows db current_nonce =
      db.operations.filter (fun o => decide ((current_nonce : Int) ≤ o.nonce)) ∧
    (unsentRows db current_nonce).Sublist db.operations ∧
    load_unsent_ops db current_nonce =
      (db.operations.filter fun o =>
        decide ((current_nonce : Int) ≤ o.nonce)).mapM (into_op db) := by
  have hc : u32_to_i32 current_nonce = (current_nonce : Int) := u32_to_i32_of_lt _ h
  refine ⟨?_, List.filter_sublist _, ?_⟩
  · unfold unsentRows
    rw [hc]
  · unfold load_unsent_ops unsentRows
    rw [hc]

/-- C7 witness: at `current_nonce = 1` on the one-operation state, the
selected rows form a sublist of the stored operations. -/
theorem C7_load_unsent_ops_spec_witness :
    (unsentRows soloCommitDB 1).Sublist soloCommitDB.operations :=
  (C7_load_unsent_ops_spec soloCommitDB 1 (by decide)).2.1

/-- C8 counterexample: on an undecodable operation blob and an undecodable
proof blob, `into_op` and `load_proof` panic (`unwrap`), not returning the
structured `Serialization` error the claim names. -/
theorem C8_counterexample_panic_not_structured :
    into_op badDB badRow = Except.error Failure.panicked ∧
    load_proof badDB 1 = Except.error Failure.panicked ∧
    into_op badDB badRow ≠ Except.error Failure.serialization ∧
    load_proof badDB 1 ≠ Except.error Failure.serialization := by
  have h1 : into_op badDB badRow = Except.error Failure.panicked := rfl
  have h2 : load_proof badDB 1 = Except.error Failure.panicked := rfl
  refine ⟨h1, h2, ?_, ?_⟩
  · rw [h1]
    intro h
    injection h with h
    exact Failure.noConfusion h
  · rw [h2]
    intro h
    injection h with h
    exact Failure.noConfusion h

/-- C8 amended: a stored blob that cannot be decoded makes the call panic
(`unwrap`): the failure aborts the operation and is never recovered or
replaced by a default value, but it is a panic, not a returned structured
`Serialization` error. -/
theorem C8_decode_failure_panics (db : DB) (so : OperationRow)
    (hbad : decodeOperation so.data = none) :
    into_op db so = Except.error Failure.panicked ∧
    ∀ (b : Nat) (row : ProofRow),
      db.proofs.find? (fun p => decide (p.block_number = u32_to_i32 b)) = some row →
      decodeProof row.proof = none →
      load_proof db b = Except.error Failure.panicked := by
  constructor
  · unfold into_op
    rw [hbad]
  · intro b row hfind hbadp
    unfold load_proof
    rw [hfind]
    show (match decodeProof row.proof with
      | none => Except.error Failure.panicked
      | some p => Except.ok p) = Except.error Failure.panicked
    rw [hbadp]

/-- C8 witness: the undecodable operation and proof blobs of `badDB` make
`into_op` and `load_proof` panic. -/
theorem C8_decode_failure_panics_witness :
    into_op badDB badRow = Except.error Failure.panicked ∧
    load_proof badDB 1 = Except.error Failure.panicked :=
  ⟨(C8_decode_failure_panics badDB badRow rfl).1,
    (C8_decode_failure_panics badDB badRow rfl).2 1 ⟨1, Value.junk 7⟩ rfl rfl⟩

/-- C9: a `Commit` operation with `accounts_updated = None` makes
`execute_operation` panic (`unwrap` on `None`) before any database write;
the outcome is the panic, not a returned structured error, and the
database is unchanged. -/
theorem C9_commit_without_accounts_panics (db : DB) (op : Operation)
    (h1 : op.action = Action.commit) (h2 : op.accounts_updated = none) :
    execute_operation db op = (db, Except.error Failure.panicked) := by
  unfold execute_operation executeBody
  rw [h1, h2]

/-- C9 witness: the concrete `Commit` without `accounts_updated` panics on
the empty database and leaves it unchanged. -/
theorem C9_commit_without_accounts_panics_witness :
    execute_operation freshDB noAccountsOp = (freshDB, Except.error Failure.panicked) :=
  C9_commit_without_accounts_panics freshDB noAccountsOp rfl rfl

/-- C10: `load_state_diff_for_block` computes `block_number - 1` in `u32`
arithmetic, so it matches `load_state_diff(n - 1, n)` only for
`block_number ≥ 1`; at `block_number = 0` the subtraction wraps to
`2^32 - 1` (release builds; debug builds abort on the underflow), and the
wrapped call returns the empty diff for every database with non-negative
stored block numbers instead of a diff of block 0. -/
theorem C10_block_zero_underflow (db : DB)
    (hpos : ∀ u ∈ db.account_updates, 0 ≤ u.block_number) :
    (∀ b : Nat, 1 ≤ b → b < 2 ^ 32 →
      load_state_diff_for_block db b = load_state_diff db (b - 1) b) ∧
    u32_sub_one 0 = 2 ^ 32 - 1 ∧
    load_state_diff_for_block db 0 = load_state_diff db (2 ^ 32 - 1) 0 ∧
    load_state_diff db (2 ^ 32 - 1) 0 = Except.ok (0, ([] : AccountMap)) := by
  have hws : u32_sub_one 0 = 2 ^ 32 - 1 := by decide
  refine ⟨?_, hws, ?_, ?_⟩
  · intro b h1 h2
    unfold load_state_diff_for_block
    have hsub : u32_sub_one b = b - 1 := by
      unfold u32_sub_one
      have hp : (2 : Nat) ^ 32 = 4294967296 := by norm_num
      rw [hp] at h2 ⊢
      omega
    rw [hsub]
  · unfold load_state_diff_for_block
    rw [hws]
  · have hbranch : ∀ i, diffBranch db 0 i = [] := by
      intro i
      have hnone : lastBlockBelow db i 0 = none := by
        unfold lastBlockBelow
        rw [listMax?_eq_none_iff, List.map_eq_nil_iff, List.filter_eq_nil_iff]
        intro u hu
        rw [Bool.and_eq_true, decide_eq_true_eq, decide_eq_true_eq]
        rintro ⟨-, hlt⟩
        have hge := hpos u hu
        have : ((0 : Nat) : Int) = 0 := rfl
        rw [this] at hlt
        omega
      unfold diffBranch
      rw [hnone]
    have hrows : diffRows db (2 ^ 32 - 1) 0 = [] := by
      unfold diffRows
      rw [List.flatMap_eq_nil_iff.mpr fun i _ => hbranch i]
      rfl
    unfold load_state_diff
    rw [hrows]
    rfl

/-- C10 witness: on a database whose one update row is at block 1, the
wrapped call for block 0 returns the empty diff. -/
theorem C10_block_zero_underflow_witness :
    load_state_diff atomicDB (2 ^ 32 - 1) 0 = Except.ok (0, ([] : AccountMap)) :=
  (C10_block_zero_underflow atomicDB (by decide)).2.2.2

end ZkStorage
